import Mathlib

/-!
Verification development for the guarded NL-to-SQL query core
(direct translator guard, database SELECT guard, ReAct agent loop,
action handlers) of the sql-ai-challenge repository.

Strings from the TypeScript source are modelled as `List Char`.
JavaScript string primitives used by the code are embedded explicitly:
`trim` as `trimJs`, `toLowerCase` as `lowerStr` (ASCII letter range, the
only range exercised by the code), the regular-expression tests of the
source (select-keyword tests and fenced-code-marker tests) as decidable
character-list predicates, and `JSON.stringify`/`JSON.parse` as a small
`Json` value type (stringification is modelled by keeping the structured
value; the agent loop re-parses only values it has itself stringified).
-/

/-- Shorthand: the character list of a string literal. -/
def strL (s : String) : List Char := s.toList

/-- ASCII fragment of the JavaScript whitespace class used by `trim`
and the regex class backslash-s: space, tab, LF, CR, VT, FF. -/
def jsSpace (c : Char) : Bool :=
  c == ' ' || c == '\t' || c == '\n' || c == '\r' || c == '\x0b' || c == '\x0c'

/-- JavaScript `String.prototype.trim`: drop whitespace from both ends. -/
def trimJs (s : List Char) : List Char :=
  ((s.dropWhile jsSpace).reverse.dropWhile jsSpace).reverse

/-- The 26 ASCII uppercase letters with their lowercase images. -/
def upperPairs : List (Char × Char) :=
  [('A', 'a'), ('B', 'b'), ('C', 'c'), ('D', 'd'), ('E', 'e'), ('F', 'f'),
   ('G', 'g'), ('H', 'h'), ('I', 'i'), ('J', 'j'), ('K', 'k'), ('L', 'l'),
   ('M', 'm'), ('N', 'n'), ('O', 'o'), ('P', 'p'), ('Q', 'q'), ('R', 'r'),
   ('S', 's'), ('T', 't'), ('U', 'u'), ('V', 'v'), ('W', 'w'), ('X', 'x'),
   ('Y', 'y'), ('Z', 'z')]

/-- ASCII lowercasing of one character (the fragment of JavaScript
`toLowerCase` exercised by the source). -/
def lowerChar (c : Char) : Char :=
  ((upperPairs.find? (fun p => p.1 == c)).map Prod.snd).getD c

/-- ASCII lowercasing of a string, modelling `toLowerCase`. -/
def lowerStr (s : List Char) : List Char := s.map lowerChar

/-- Is `c` an ASCII uppercase letter? -/
def isUpperChar (c : Char) : Bool := (upperPairs.find? (fun p => p.1 == c)).isSome

/-- Does the string contain an ASCII uppercase letter? -/
def hasUpper (s : List Char) : Bool := s.any isUpperChar

/-- `startsWithL pat s`: does `s` start with `pat`? -/
def startsWithL : List Char → List Char → Bool
  | [], _ => true
  | _ :: _, [] => false
  | p :: ps, c :: cs => p == c && startsWithL ps cs

/-- Does `s` contain `pat` as a contiguous substring
(JavaScript `String.prototype.includes`; also: does the regex whose
pattern is the literal `pat` match `s`)? -/
def containsSub (pat : List Char) : List Char → Bool
  | [] => startsWithL pat []
  | c :: cs => startsWithL pat (c :: cs) || containsSub pat cs

/-- The suffix of `s` after the first (leftmost) occurrence of `pat`,
or `none` when `pat` does not occur.  This is where a regex of the form
`pat(...)` starts its capture group. -/
def restAfterFirst (pat : List Char) : List Char → Option (List Char)
  | [] => if startsWithL pat [] then some [] else none
  | c :: cs =>
    if startsWithL pat (c :: cs) then some (List.drop pat.length (c :: cs))
    else restAfterFirst pat cs

/-- Does one of the stop strings start here? -/
def startsAny (stops : List (List Char)) (s : List Char) : Bool :=
  stops.any (fun p => startsWithL p s)

/-- The prefix of `s` before the first position at which one of the
stop strings begins; all of `s` when none occurs.  This is the text a
lazy capture group matches under a lookahead alternation of the stops
(or end of input). -/
def uptoFirstAny (stops : List (List Char)) : List Char → List Char
  | [] => []
  | c :: cs => if startsAny stops (c :: cs) then [] else c :: uptoFirstAny stops cs

/-- Does `s` begin case-insensitively with the word `select`
(no constraint on the following character)? -/
def beginsSelectCI (s : List Char) : Bool := startsWithL (strL "select") (lowerStr s)

/-- Is the head character a whitespace character? -/
def headIsSpace : List Char → Bool
  | c :: _ => jsSpace c
  | [] => false

/-- The test of the regex `/^select\s/i`: `select` case-insensitively,
followed by one whitespace character. -/
def startsSelectWS (s : List Char) : Bool :=
  beginsSelectCI s && headIsSpace (s.drop 6)

/-- The test of the regex `/^\s*select\s/i`. -/
def leadSelectTest (s : List Char) : Bool := startsSelectWS (s.dropWhile jsSpace)

/-- A backtick character (written by code point to keep source plain). -/
def backTick : Char := Char.ofNat 96

/-- Does `s` begin with three backticks? -/
def startsTicks3 (s : List Char) : Bool :=
  startsWithL [backTick, backTick, backTick] s

/-- The test of the regex matching optional whitespace, three backticks
and the case-insensitive tag `sql` at the start of the string. -/
def fenceSqlTest (s : List Char) : Bool :=
  let t := s.dropWhile jsSpace
  startsTicks3 t && startsWithL (strL "sql") (lowerStr (t.drop 3))

/-- Remove the matched leading whitespace, three backticks and `sql`
tag (the `replace` of that regex by the empty string). -/
def dropFenceSql (s : List Char) : List Char := (s.dropWhile jsSpace).drop 6

/-- The test of the regex matching optional whitespace and three
backticks at the start of the string. -/
def fenceBareTest (s : List Char) : Bool := startsTicks3 (s.dropWhile jsSpace)

/-- Remove the matched leading whitespace and three backticks. -/
def dropFenceBare (s : List Char) : List Char := (s.dropWhile jsSpace).drop 3

/-- Remove a closing fence: three backticks at the very end of the
string (JavaScript `replace` of three backticks anchored at the end). -/
def dropFenceClose (s : List Char) : List Char :=
  let r := s.reverse
  if startsTicks3 r then (r.drop 3).reverse else s

/-- The message of the direct-translator guard violation error. -/
def guardMsg : List Char := strL "Guard: Non-SELECT SQL generated. Aborting."

/-- The final normalization of the direct translator: strip a leading
sql-tagged fence, then a leading bare fence, then a trailing fence,
then trim (nl2sql.service.ts line 132). -/
def normalizeSql (s : List Char) : List Char :=
  let s1 := if fenceSqlTest s then dropFenceSql s else s
  let s2 := if fenceBareTest s1 then dropFenceBare s1 else s1
  trimJs (dropFenceClose s2)

/-- The direct translator guard and normalization applied to the raw
model content (nl2sql.service.ts lines 119-132 / part_004 lines
119-132): trim; when writes are not allowed and the text does not pass
`/^select\s/i`, strip an sql-tagged fence (when present) and retest;
reject with the guard error when the retest fails; finally normalize. -/
def guardAndNormalize (allowWrites : Bool) (content : List Char) :
    Except (List Char) (List Char) :=
  let sql0 := trimJs content
  if !allowWrites && !startsSelectWS sql0 then
    let sql1 := if fenceSqlTest sql0 then trimJs (dropFenceClose (dropFenceSql sql0)) else sql0
    if !startsSelectWS sql1 then Except.error guardMsg
    else Except.ok (normalizeSql sql1)
  else Except.ok (normalizeSql sql0)

/-- Acceptance condition transcribed from the claim wording for C1:
after stripping one optional fenced-code marker (sql-tagged or bare,
leading and trailing) and surrounding whitespace, the text begins
case-insensitively with `select`. -/
def specAcceptC1 (s : List Char) : Bool :=
  let t := trimJs s
  let t1 :=
    if fenceSqlTest t then (t.dropWhile jsSpace).drop 6
    else if fenceBareTest t then (t.dropWhile jsSpace).drop 3
    else t
  beginsSelectCI (trimJs (dropFenceClose t1))

/-- Acceptance condition actually enforced by the source: the trimmed
text passes `/^select\s/i`, or it begins with an sql-tagged fence and,
after stripping that opening marker, a trailing fence and whitespace,
the remainder passes `/^select\s/i`. -/
def amendedAcceptC1 (s : List Char) : Bool :=
  let t := trimJs s
  startsSelectWS t ||
    (fenceSqlTest t && startsSelectWS (trimJs (dropFenceClose (dropFenceSql t))))

/-- JSON values, modelling what `JSON.stringify` serializes and
`JSON.parse` produces.  Observations exchanged inside the agent loop
are kept as structured values instead of serialized text. -/
inductive Json where
  | null : Json
  | bool (b : Bool) : Json
  | num (n : Int) : Json
  | str (s : List Char) : Json
  | arr (items : List Json) : Json
  | obj (fields : List (List Char × Json)) : Json

/-- First field with the given key of an association list. -/
def lookupField : List (List Char × Json) → List Char → Option Json
  | [], _ => none
  | (k, v) :: fs, key => if k = key then some v else lookupField fs key

/-- JavaScript property access `p.key` on a parsed JSON value:
`none` models `undefined`. -/
def jMember : Json → List Char → Option Json
  | Json.obj fs, key => lookupField fs key
  | _, _ => none

/-- JavaScript truthiness of a JSON value. -/
def jTruthy : Json → Bool
  | Json.null => false
  | Json.bool b => b
  | Json.num n => !(n == 0)
  | Json.str s => !s.isEmpty
  | Json.arr _ => true
  | Json.obj _ => true

/-- A database engine capability: takes the SQL text and the bound
parameters, returns rows or fails with an error message.  This models
the pooled `client.query` call inside `DbService.execSelect`. -/
def DbEngine : Type := List Char → List (List Char) → Except (List Char) (List Json)

/-- The message of the database-layer guard error. -/
def onlySelectMsg : List Char := strL "Guard: Only SELECT statements are allowed."

/-- `DbService.execSelect` (part_005 lines 24-38): unless writes are
enabled, reject text that does not pass the leading-select regex before
touching the engine; otherwise run the query. -/
def execSelect (allowWrites : Bool) (engine : DbEngine) (sql : List Char)
    (params : List (List Char)) : Except (List Char) (List Json) :=
  if !allowWrites && !leadSelectTest sql then Except.error onlySelectMsg
  else engine sql params

/-- `ReactAgentService.executeSqlQuery` (react-agent.service.ts lines
38-65): reject non-SELECT text with a failure observation without
touching the database; otherwise execute and wrap the rows, catching
database errors into a failure observation. -/
def executeSqlQuery (allowWrites : Bool) (engine : DbEngine) (query : List Char) : Json :=
  if !leadSelectTest (trimJs query) then
    Json.obj [(strL "error", Json.str (strL "Only SELECT queries are allowed")),
              (strL "query", Json.str query)]
  else
    match execSelect allowWrites engine query [] with
    | Except.ok rows =>
      Json.obj [(strL "success", Json.bool true),
                (strL "rowCount", Json.num rows.length),
                (strL "data", Json.arr rows)]
    | Except.error e =>
      Json.obj [(strL "error", Json.str e),
                (strL "query", Json.str query),
                (strL "success", Json.bool false)]

/-- A single-quote character (written by code point to keep source plain). -/
def sqc : Char := Char.ofNat 39

/-- The catalog query of the `tables` command of the schema inspector. -/
def tablesQuery : List Char :=
  strL "\n          SELECT table_name, table_type\n          FROM information_schema.tables \n          WHERE table_schema = " ++ [sqc] ++ strL "public" ++ [sqc] ++
  strL "\n          ORDER BY table_name\n        "

/-- The catalog query of the `describe` command of the schema inspector. -/
def describeQuery : List Char :=
  strL "\n          SELECT column_name, data_type, is_nullable, column_default\n          FROM information_schema.columns\n          WHERE table_schema = " ++ [sqc] ++ strL "public" ++ [sqc] ++
  strL " AND table_name = $1\n          ORDER BY ordinal_position\n        "

/-- The existence-check query of the `sample` command of the schema
inspector. -/
def checkQuery : List Char :=
  strL "\n          SELECT table_name \n          FROM information_schema.tables \n          WHERE table_schema = " ++ [sqc] ++ strL "public" ++ [sqc] ++
  strL " AND table_name = $1\n        "

/-- The sampling query: the table identifier is interpolated into the
text (only reached after the existence check). -/
def sampleQuery (tableName : List Char) : List Char :=
  strL "SELECT * FROM " ++ tableName ++ strL " LIMIT 3"

/-- The structured error for an unknown schema-inspector command,
enumerating the three valid forms. -/
def invalidCmdMsg : List Char :=
  strL "Invalid command. Use: tables, describe <table>, or sample <table>"

/-- The table-not-found message of the schema inspector. -/
def notFoundMsg (tableName : List Char) : List Char :=
  strL "Table " ++ [sqc] ++ tableName ++ [sqc] ++ strL " not found"

/-- The table-not-found observation of the schema inspector. -/
def notFoundJson (tableName : List Char) : Json :=
  Json.obj [(strL "error", Json.str (notFoundMsg tableName)),
            (strL "tableName", Json.str tableName)]

/-- The observation of the catch handler of the schema inspector. -/
def inspectCatchJson (e input : List Char) : Json :=
  Json.obj [(strL "error", Json.str e), (strL "command", Json.str input)]

/-- `ReactAgentService.inspectSchema` (react-agent.service.ts lines
67-125): lowercase the trimmed input, dispatch on the three command
forms, and return structured observations; database errors are caught
into an error observation carrying the raw input. -/
def inspectSchema (allowWrites : Bool) (engine : DbEngine) (input : List Char) : Json :=
  let command := lowerStr (trimJs input)
  if command = strL "tables" then
    match execSelect allowWrites engine tablesQuery [] with
    | Except.ok rows =>
      Json.obj [(strL "success", Json.bool true), (strL "tables", Json.arr rows)]
    | Except.error e => inspectCatchJson e input
  else if startsWithL (strL "describe ") command then
    let tableName := trimJs (command.drop 9)
    match execSelect allowWrites engine describeQuery [tableName] with
    | Except.ok rows =>
      if rows.isEmpty then notFoundJson tableName
      else
        Json.obj [(strL "success", Json.bool true),
                  (strL "tableName", Json.str tableName),
                  (strL "columns", Json.arr rows)]
    | Except.error e => inspectCatchJson e input
  else if startsWithL (strL "sample ") command then
    let tableName := trimJs (command.drop 7)
    match execSelect allowWrites engine checkQuery [tableName] with
    | Except.ok [] => notFoundJson tableName
    | Except.ok (_ :: _) =>
      match execSelect allowWrites engine (sampleQuery tableName) [] with
      | Except.ok rows =>
        Json.obj [(strL "success", Json.bool true),
                  (strL "tableName", Json.str tableName),
                  (strL "sampleRows", Json.arr rows),
                  (strL "rowCount", Json.num rows.length)]
      | Except.error e => inspectCatchJson e input
    | Except.error e => inspectCatchJson e input
  else
    Json.obj [(strL "error", Json.str invalidCmdMsg), (strL "command", Json.str input)]

/-- A PostgreSQL catalog with the given public base tables: answers
the fixed catalog queries of the schema inspector by exact name match;
rows of other queries are left empty (they are irrelevant to the
claims proved about it). -/
def catalogEngine (tables : List (List Char)) (cols : List Char → List Json) : DbEngine :=
  fun sql params =>
    if sql = checkQuery then
      match params with
      | [t] =>
        Except.ok ((tables.filter (fun n => n == t)).map
          (fun n => Json.obj [(strL "table_name", Json.str n)]))
      | _ => Except.ok []
    else if sql = describeQuery then
      match params with
      | [t] => Except.ok (if t ∈ tables then cols t else [])
      | _ => Except.ok []
    else if sql = tablesQuery then
      Except.ok (tables.map (fun n => Json.obj [(strL "table_name", Json.str n)]))
    else Except.ok []

/-- JSON interstitial whitespace. -/
def jsonWs (c : Char) : Bool := c == ' ' || c == '\t' || c == '\n' || c == '\r'

/-- Is `c` an ASCII digit? -/
def isDigitChar (c : Char) : Bool := '0' ≤ c && c ≤ '9'

/-- Split a leading run of digits from the rest. -/
def spanDigits : List Char → List Char × List Char
  | [] => ([], [])
  | c :: cs =>
    if isDigitChar c then
      let (ds, rest) := spanDigits cs
      (c :: ds, rest)
    else ([], c :: cs)

/-- Numeric value of a digit run. -/
def digitsToNat (ds : List Char) : Nat :=
  ds.foldl (fun a c => a * 10 + (c.toNat - 48)) 0

/-- Body of a JSON string literal after the opening quote: returns the
decoded characters and the rest after the closing quote.  Handles the
escapes exercised by the source; unsupported escapes fail the parse. -/
def parseStringBody : Nat → List Char → List Char → Option (List Char × List Char)
  | 0, _, _ => none
  | Nat.succ f, acc, s =>
    match s with
    | [] => none
    | c :: cs =>
      if c = '"' then some (acc.reverse, cs)
      else if c = '\\' then
        match cs with
        | [] => none
        | e :: cs2 =>
          if e = '"' then parseStringBody f ('"' :: acc) cs2
          else if e = '\\' then parseStringBody f ('\\' :: acc) cs2
          else if e = '/' then parseStringBody f ('/' :: acc) cs2
          else if e = 'n' then parseStringBody f ('\n' :: acc) cs2
          else if e = 't' then parseStringBody f ('\t' :: acc) cs2
          else if e = 'r' then parseStringBody f ('\r' :: acc) cs2
          else if e = 'b' then parseStringBody f ('\x08' :: acc) cs2
          else if e = 'f' then parseStringBody f ('\x0c' :: acc) cs2
          else none
      else parseStringBody f (c :: acc) cs

mutual

/-- Parse one JSON value (after optional whitespace), returning the
value and the remaining input.  Fuel-indexed to be structurally total. -/
def parseValue : Nat → List Char → Option (Json × List Char)
  | 0, _ => none
  | Nat.succ f, s =>
    let s1 := s.dropWhile jsonWs
    match s1 with
    | [] => none
    | c :: cs =>
      if c = '"' then
        match parseStringBody (cs.length + 1) [] cs with
        | some (body, rest) => some (Json.str body, rest)
        | none => none
      else if c = 't' then
        if startsWithL (strL "rue") cs then some (Json.bool true, cs.drop 3) else none
      else if c = 'f' then
        if startsWithL (strL "alse") cs then some (Json.bool false, cs.drop 4) else none
      else if c = 'n' then
        if startsWithL (strL "ull") cs then some (Json.null, cs.drop 3) else none
      else if c = '-' then
        match spanDigits cs with
        | ([], _) => none
        | (ds, rest) => some (Json.num (-(Int.ofNat (digitsToNat ds))), rest)
      else if isDigitChar c then
        match spanDigits (c :: cs) with
        | (ds, rest) => some (Json.num (Int.ofNat (digitsToNat ds)), rest)
      else if c = '[' then parseArrItems f cs
      else if c = '\x7b' then parseObjFields f cs
      else none

/-- Parse the items of a JSON array after the opening bracket. -/
def parseArrItems : Nat → List Char → Option (Json × List Char)
  | 0, _ => none
  | Nat.succ f, s =>
    let s1 := s.dropWhile jsonWs
    match s1 with
    | ']' :: rest => some (Json.arr [], rest)
    | _ =>
      match parseValue f s1 with
      | none => none
      | some (v, rest) =>
        match rest.dropWhile jsonWs with
        | ',' :: r2 =>
          match parseArrItems f r2 with
          | some (Json.arr vs, r3) => some (Json.arr (v :: vs), r3)
          | _ => none
        | ']' :: r2 => some (Json.arr [v], r2)
        | _ => none

/-- Parse the fields of a JSON object after the opening brace. -/
def parseObjFields : Nat → List Char → Option (Json × List Char)
  | 0, _ => none
  | Nat.succ f, s =>
    let s1 := s.dropWhile jsonWs
    match s1 with
    | '\x7d' :: rest => some (Json.obj [], rest)
    | '"' :: cs =>
      match parseStringBody (cs.length + 1) [] cs with
      | none => none
      | some (key, rest) =>
        match rest.dropWhile jsonWs with
        | ':' :: r2 =>
          match parseValue f r2 with
          | none => none
          | some (v, r3) =>
            match r3.dropWhile jsonWs with
            | ',' :: r4 =>
              match parseObjFields f r4 with
              | some (Json.obj fs, r5) => some (Json.obj ((key, v) :: fs), r5)
              | _ => none
            | '\x7d' :: r4 => some (Json.obj ((key, v) :: []), r4)
            | _ => none
        | _ => none
    | _ => none

end

/-- `JSON.parse` on the fragment of JSON produced and consumed by the
source: `none` models a thrown parse error. -/
def jsonParse (s : List Char) : Option Json :=
  match parseValue (2 * s.length + 2) s with
  | some (v, rest) => if (rest.dropWhile jsonWs).isEmpty then some v else none
  | none => none

/-- The classification chain of `ReactAgentService.analyzeError`
(react-agent.service.ts lines 144-155), applied to the lowercased
message. -/
def classifyMsg (lowerMsg : List Char) : List Char :=
  if containsSub (strL "syntax error") lowerMsg then strL "SYNTAX_ERROR"
  else if containsSub (strL "relation") lowerMsg &&
          containsSub (strL "does not exist") lowerMsg then strL "RELATION_NOT_FOUND"
  else if containsSub (strL "column") lowerMsg &&
          containsSub (strL "does not exist") lowerMsg then strL "COLUMN_NOT_FOUND"
  else if containsSub (strL "only select statements are allowed") lowerMsg then
    strL "SAFETY_GUARD"
  else strL "UNKNOWN_ERROR"

/-- The single suggestion pushed for each classification
(react-agent.service.ts lines 157-173). -/
def suggestionFor (errorType : List Char) : List Char :=
  if errorType = strL "SYNTAX_ERROR" then
    strL "Check SQL syntax for missing commas, parentheses, or quotes"
  else if errorType = strL "RELATION_NOT_FOUND" then
    strL "Check table name spelling - available tables: contacts, cases, recent_activity"
  else if errorType = strL "COLUMN_NOT_FOUND" then
    strL "Verify column name spelling and case"
  else if errorType = strL "SAFETY_GUARD" then
    strL "Only SELECT queries are allowed for security"
  else strL "Review the query for common SQL errors"

/-- The retryable classifications (the `canRetry` membership list). -/
def retryList : List (List Char) :=
  [strL "SYNTAX_ERROR", strL "RELATION_NOT_FOUND", strL "COLUMN_NOT_FOUND",
   strL "SAFETY_GUARD"]

/-- The analysis object built from a string message and the original
query (`none` models an `undefined` property, omitted by
`JSON.stringify`; a parse failure leaves the initial `null`). -/
def analyzeCore (msg : List Char) (origQuery : Option Json) : Json :=
  let errorType := classifyMsg (lowerStr msg)
  Json.obj
    ([(strL "errorType", Json.str errorType),
      (strL "originalError", Json.str msg)] ++
     (match origQuery with
      | some q => [(strL "originalQuery", q)]
      | none => []) ++
     [(strL "suggestions", Json.arr [Json.str (suggestionFor errorType)]),
      (strL "canRetry", Json.bool (decide (errorType ∈ retryList)))])

/-- The object returned by the catch handler of `analyzeError`. -/
def analyzeFailJson (input : List Char) : Json :=
  Json.obj [(strL "error", Json.str (strL "Failed to analyze error")),
            (strL "originalError", Json.str input)]

/-- `ReactAgentService.analyzeError` (react-agent.service.ts lines
127-189): try to parse the payload as JSON; when it is an object with
a truthy `error` field, classify that field (a non-string truthy field
makes `toLowerCase` throw, landing in the catch handler); otherwise
classify the raw payload text. -/
def analyzeError (input : List Char) : Json :=
  match jsonParse input with
  | some p =>
    match jMember p (strL "error") with
    | some ev =>
      if jTruthy ev then
        match ev with
        | Json.str m => analyzeCore m (jMember p (strL "query"))
        | _ => analyzeFailJson input
      else analyzeCore input (some Json.null)
    | none => analyzeCore input (some Json.null)
  | none => analyzeCore input (some Json.null)


/-- One accumulated context entry of the agent loop: the literal
action, action input and observation appended after a dispatched
action (react-agent.service.ts line 292).  The source serializes these
into one context string; the entries are kept structured here, and the
model oracle receives them verbatim. -/
structure CtxEntry where
  action : List Char
  input : List Char
  obs : Json

/-- The mutable locals of `processQuery` while the loop runs. -/
structure LoopState where
  context : List CtxEntry
  reasoning : List (List Char)
  observations : List Json
  sqlQueries : List (List Char)
  allQueryResults : List Json
  iteration : Nat

/-- The result shape of the ReAct agent (types.ts `ReactQueryResult`). -/
structure ReactQueryResult where
  sql : List (List Char)
  reasoning : List (List Char)
  observations : List Json
  rows : List Json
  iterations : Nat
  success : Bool

/-- The language-model capability as seen by the agent loop: one
invocation per iteration, receiving the accumulated context (the
constant system prompt and the user prompt are fixed components of
every message and are folded into the oracle); an error models a
thrown transport failure. -/
def AgentLlm : Type := List CtxEntry → Except (List Char) (List Char)

/-- The section headers of the response grammar. -/
def thHeader : List Char := strL "Thought:"
def acHeader : List Char := strL "Action:"
def aiHeader : List Char := strL "Action Input:"
def faHeader : List Char := strL "Final Answer:"

/-- The trimmed capture of the Thought regex: text after the first
`Thought:` up to the first `Action:` or `Final Answer:` or the end. -/
def thoughtCapture (resp : List Char) : Option (List Char) :=
  (restAfterFirst thHeader resp).map
    (fun r => trimJs (uptoFirstAny [acHeader, faHeader] r))

/-- The trimmed capture of the Action regex: text after the first
`Action:` up to the first `Action Input:` or the end. -/
def actionCapture (resp : List Char) : List Char :=
  match restAfterFirst acHeader resp with
  | some r => trimJs (uptoFirstAny [aiHeader] r)
  | none => []

/-- The trimmed capture of the Action Input regex: text after the
first `Action Input:` to the end. -/
def inputCapture (resp : List Char) : List Char :=
  match restAfterFirst aiHeader resp with
  | some r => trimJs r
  | none => []

/-- `ReactAgentService.executeAction` (react-agent.service.ts lines
25-36): dispatch on the lowercased action name; unknown names yield a
failure observation. -/
def executeAction (allowWrites : Bool) (engine : DbEngine)
    (action input : List Char) : Json :=
  if lowerStr action = strL "sql-query" then executeSqlQuery allowWrites engine input
  else if lowerStr action = strL "schema-inspector" then
    inspectSchema allowWrites engine input
  else if lowerStr action = strL "error-analyzer" then analyzeError input
  else Json.obj [(strL "error", Json.str (strL "Unknown action: " ++ action))]

/-- The diagnostic reasoning entry pushed on an unparseable response. -/
def unableMsg : List Char := strL "Unable to parse action from response"

/-- One loop-body pass over a model response (react-agent.service.ts
lines 247-297): record the Thought capture; break on a Final Answer
match; else dispatch a complete Action / Action Input pair, recording
the observation, the issued sql-query inputs and their row data; else
record the diagnostic entry and break.  The returned flag is true when
the body executed `break`. -/
def stepResponse (allowWrites : Bool) (engine : DbEngine) (resp : List Char)
    (st : LoopState) : LoopState × Bool :=
  let st1 :=
    match thoughtCapture resp with
    | some t => { st with reasoning := st.reasoning ++ [t] }
    | none => st
  if containsSub faHeader resp then (st1, true)
  else if containsSub acHeader resp && containsSub aiHeader resp then
    let action := actionCapture resp
    let input := inputCapture resp
    let obs := executeAction allowWrites engine action input
    let st2 := { st1 with observations := st1.observations ++ [obs] }
    let st3 :=
      if lowerStr action = strL "sql-query" then
        let st3a := { st2 with sqlQueries := st2.sqlQueries ++ [input] }
        match jMember obs (strL "success"), jMember obs (strL "data") with
        | some sv, some dv =>
          if jTruthy sv && jTruthy dv then
            match dv with
            | Json.arr d =>
              { st3a with allQueryResults := st3a.allQueryResults ++ d }
            | _ => { st3a with allQueryResults := st3a.allQueryResults ++ [dv] }
          else st3a
        | _, _ => st3a
      else st2
    ({ st3 with context := st3.context ++ [⟨action, input, obs⟩] }, false)
  else ({ st1 with reasoning := st1.reasoning ++ [unableMsg] }, true)

/-- The normal return of `processQuery` (react-agent.service.ts lines
305-312), used both after a break and after budget exhaustion. -/
def successResult (st : LoopState) : ReactQueryResult :=
  ⟨st.sqlQueries, st.reasoning, st.observations, st.allQueryResults,
   st.iteration, true⟩

/-- The catch-handler return of `processQuery` (react-agent.service.ts
lines 314-325). -/
def errorResult (st : LoopState) (e : List Char) : ReactQueryResult :=
  ⟨st.sqlQueries, [strL "Error: " ++ e],
   [Json.str (strL "Failed to complete query processing")], [],
   st.iteration, false⟩

/-- The while loop of `processQuery`, with the remaining iteration
budget as fuel (`fuel = maxIterations - iteration`): increment the
iteration counter, invoke the model (a thrown model error lands in the
catch handler), run the body, return on break, recurse otherwise. -/
def loopGo (allowWrites : Bool) (llm : AgentLlm) (engine : DbEngine) :
    Nat → LoopState → ReactQueryResult
  | 0, st => successResult st
  | Nat.succ fuel, st =>
    let st1 := { st with iteration := st.iteration + 1 }
    match llm st1.context with
    | Except.error e => errorResult st1 e
    | Except.ok resp =>
      match stepResponse allowWrites engine resp st1 with
      | (st2, true) => successResult st2
      | (st2, false) => loopGo allowWrites llm engine fuel st2

/-- The initial loop state: empty context and trace, iteration 0. -/
def initState : LoopState := ⟨[], [], [], [], [], 0⟩

/-- `ReactAgentService.processQuery` (react-agent.service.ts lines
191-326). -/
def processQuery (allowWrites : Bool) (maxIterations : Nat) (llm : AgentLlm)
    (engine : DbEngine) : ReactQueryResult :=
  loopGo allowWrites llm engine maxIterations initState

/-- The language-model capability of the direct translator: one
request/response exchange for a prompt. -/
def DirectLlm : Type := List Char → Except (List Char) (List Char)

/-- `Nl2SqlService.translateDirect` (part_004 lines 87-136): one model
exchange, then the guard and normalization of `guardAndNormalize`. -/
def translateDirect (allowWrites : Bool) (llm : DirectLlm) (prompt : List Char) :
    Except (List Char) (List Char) :=
  match llm prompt with
  | Except.error e => Except.error e
  | Except.ok content => guardAndNormalize allowWrites content

/-- The two result shapes `Nl2SqlService.process` can return
(`Nl2SqlResult` with a single sql string, or `ReactQueryResult`).  The
source distinguishes them by an ad hoc field-shape check; the tag
plays that role here. -/
inductive ProcessOut where
  | direct (sql : List Char) : ProcessOut
  | agent (r : ReactQueryResult) : ProcessOut

/-- `Nl2SqlService.process` (part_004 lines 56-85) for the react mode
flag: when react mode is not enabled, fall back to the direct
translator; otherwise run the agent loop.  In this embedding
`processQuery` is total, so the catch-and-fallback branch of the
source (reachable only through the constructor-precluded
uninitialized-model throw) has no counterpart. -/
def nl2sqlProcess (allowWrites reactEnabled : Bool) (maxIterations : Nat)
    (dllm : DirectLlm) (allm : AgentLlm) (engine : DbEngine)
    (prompt : List Char) (isReact : Bool) : Except (List Char) ProcessOut :=
  if isReact then
    if !reactEnabled then
      match translateDirect allowWrites dllm prompt with
      | Except.error e => Except.error e
      | Except.ok s => Except.ok (ProcessOut.direct s)
    else Except.ok (ProcessOut.agent (processQuery allowWrites maxIterations allm engine))
  else
    match translateDirect allowWrites dllm prompt with
    | Except.error e => Except.error e
    | Except.ok s => Except.ok (ProcessOut.direct s)

/-- The fixed fallback notice of the controller wrap. -/
def fallbackNotice : List Char := strL "Fallback to direct mode due to ReAct being disabled"

/-- `QueryController.handleReactQuery` (query.controller.ts lines
40-107): a direct-shaped result is wrapped into the agent shape with a
synthetic one-step trace and executed rows; a proper agent result with
no rows but at least one sql statement gets its final statement
executed (execution errors there are logged and ignored). -/
def handleReactQuery (allowWrites reactEnabled : Bool) (maxIterations : Nat)
    (dllm : DirectLlm) (allm : AgentLlm) (engine : DbEngine)
    (prompt : List Char) : Except (List Char) ReactQueryResult :=
  match nl2sqlProcess allowWrites reactEnabled maxIterations dllm allm engine prompt true with
  | Except.error e => Except.error e
  | Except.ok (ProcessOut.direct s) =>
    match execSelect allowWrites engine s [] with
    | Except.error e => Except.error e
    | Except.ok rows =>
      Except.ok ⟨[s], [fallbackNotice], [Json.str (strL "Direct SQL generation used")],
                 rows, 1, true⟩
  | Except.ok (ProcessOut.agent r) =>
    if r.success && decide (0 < r.sql.length) && r.rows.isEmpty then
      match execSelect allowWrites engine ((r.sql.getLast?).getD []) [] with
      | Except.ok rows => Except.ok { r with rows := rows }
      | Except.error _ => Except.ok r
    else Except.ok r

/-- `QueryController.handleDirectQuery` (query.controller.ts lines
26-38): translate, execute, return the statement and its rows. -/
def handleDirectQuery (allowWrites : Bool) (dllm : DirectLlm) (engine : DbEngine)
    (prompt : List Char) : Except (List Char) (List Char × List Json) :=
  match translateDirect allowWrites dllm prompt with
  | Except.error e => Except.error e
  | Except.ok s =>
    match execSelect allowWrites engine s [] with
    | Except.error e => Except.error e
    | Except.ok rows => Except.ok (s, rows)

/-- A database engine that returns no rows and never fails. -/
def emptyDb : DbEngine := fun _ _ => Except.ok []

/-- A model oracle whose response carries no recognizable section
header. -/
def noHeaderLlm : AgentLlm := fun _ => Except.ok (strL "I cannot help with that.")

/-- A model oracle whose invocation always fails (thrown transport
error). -/
def failingLlm : AgentLlm := fun _ => Except.error (strL "model transport failure")

/-- A direct-mode model oracle answering a fixed SELECT statement. -/
def selectDllm : DirectLlm := fun _ => Except.ok (strL "select 1 ")

/-- A model oracle answering a response that contains both a Final
Answer section and an Action section. -/
def bothHeadersLlm : AgentLlm :=
  fun _ => Except.ok (strL "Thought: done\nFinal Answer: 42\nAction: sql-query\nAction Input: select 1")

/-- The error payload of the concrete scenario of the error-analyzer
claim. -/
def relationPayload : List Char :=
  strL "\x7b\"error\":\"relation \\\"foo\\\" does not exist\"\x7d"

/-- An error payload whose truthy `error` field is not a string. -/
def numErrorPayload : List Char := strL "\x7b\"error\":5\x7d"

lemma length_dropWhileL (p : Char → Bool) (l : List Char) :
    (l.dropWhile p).length ≤ l.length := by
  induction l with
  | nil => simp
  | cons c cs ih =>
    rw [List.dropWhile_cons]
    by_cases h : p c = true
    · simp only [h, if_true]
      exact Nat.le_trans ih (by simp)
    · simp [h]

lemma dropWhile_fix_head {p : Char → Bool} {l : List Char}
    (h : l.dropWhile p = l) : l = [] ∨ ∃ c cs, l = c :: cs ∧ p c = false := by
  cases l with
  | nil => exact Or.inl rfl
  | cons c cs =>
    right
    refine ⟨c, cs, rfl, ?_⟩
    by_cases hpc : p c = true
    · exfalso
      rw [List.dropWhile_cons, if_pos hpc] at h
      have hle := length_dropWhileL p cs
      rw [h] at hle
      simp at hle
    · simpa using hpc

lemma dropWhile_suffix (p : Char → Bool) (l : List Char) :
    ∃ pre, pre ++ l.dropWhile p = l := by
  induction l with
  | nil => exact ⟨[], rfl⟩
  | cons c cs ih =>
    rw [List.dropWhile_cons]
    by_cases h : p c = true
    · obtain ⟨pre, hpre⟩ := ih
      exact ⟨c :: pre, by simp [h, hpre]⟩
    · exact ⟨[], by simp [h]⟩

lemma dropWhile_idem (p : Char → Bool) (l : List Char) :
    (l.dropWhile p).dropWhile p = l.dropWhile p := by
  induction l with
  | nil => simp
  | cons c cs ih =>
    rw [List.dropWhile_cons]
    by_cases h : p c = true
    · simp only [h, if_true]
      exact ih
    · simp [List.dropWhile_cons, h]

lemma fix_of_append {p : Char → Bool} {l pre t : List Char}
    (h : l.dropWhile p = l) (happ : pre ++ t = l) : pre.dropWhile p = pre := by
  cases pre with
  | nil => simp
  | cons c cs =>
    rcases dropWhile_fix_head h with hnil | ⟨d, ds, hds, hd⟩
    · rw [hnil] at happ
      simp at happ
    · have hc : c = d := by
        rw [hds] at happ
        simpa using congrArg (fun x => x.head?) happ
      rw [List.dropWhile_cons, hc, hd]
      simp

lemma trimJs_noLeadWs (s : List Char) :
    (trimJs s).dropWhile jsSpace = trimJs s := by
  unfold trimJs
  have hfix : (s.dropWhile jsSpace).dropWhile jsSpace = s.dropWhile jsSpace :=
    dropWhile_idem jsSpace s
  obtain ⟨pre, hpre⟩ := dropWhile_suffix jsSpace (s.dropWhile jsSpace).reverse
  have hsplit :
      ((s.dropWhile jsSpace).reverse.dropWhile jsSpace).reverse ++ pre.reverse =
        s.dropWhile jsSpace := by
    have h2 := congrArg List.reverse hpre
    rw [List.reverse_append, List.reverse_reverse] at h2
    exact h2
  exact fix_of_append hfix hsplit

lemma startsWith_append_self (p l : List Char) : startsWithL p (p ++ l) = true := by
  induction p with
  | nil => rfl
  | cons c cs ih => simp [startsWithL, ih]

lemma startsWith_exists {p s : List Char} (h : startsWithL p s = true) :
    ∃ r, s = p ++ r := by
  induction p generalizing s with
  | nil => exact ⟨s, rfl⟩
  | cons c cs ih =>
    cases s with
    | nil => simp [startsWithL] at h
    | cons d ds =>
      simp only [startsWithL, Bool.and_eq_true, beq_iff_eq] at h
      obtain ⟨r, hr⟩ := ih h.2
      exact ⟨r, by simp [h.1, hr]⟩

lemma contains_false_restAfter {pat s : List Char}
    (h : containsSub pat s = false) : restAfterFirst pat s = none := by
  induction s with
  | nil =>
    simp only [containsSub] at h
    simp [restAfterFirst, h]
  | cons c cs ih =>
    simp only [containsSub, Bool.or_eq_false_iff] at h
    simp [restAfterFirst, h.1, ih h.2]

lemma jsSpace_lowerChar (c : Char) : jsSpace (lowerChar c) = jsSpace c := by
  unfold lowerChar
  cases hf : upperPairs.find? (fun p => p.1 == c) with
  | none => rfl
  | some pr =>
    have hmem := List.mem_of_find?_eq_some hf
    have hpred := List.find?_some hf
    simp only [beq_iff_eq] at hpred
    subst hpred
    have hboth : jsSpace pr.2 = false ∧ jsSpace pr.1 = false := by
      have : ∀ q ∈ upperPairs, jsSpace q.2 = false ∧ jsSpace q.1 = false := by decide
      exact this pr hmem
    simp [hboth.1, hboth.2]

lemma isUpper_lowerChar (c : Char) : isUpperChar (lowerChar c) = false := by
  unfold lowerChar
  cases hf : upperPairs.find? (fun p => p.1 == c) with
  | none =>
    simp only [Option.map_none', Option.getD_none]
    simpa [isUpperChar] using hf
  | some pr =>
    have hmem := List.mem_of_find?_eq_some hf
    have : ∀ q ∈ upperPairs, isUpperChar q.2 = false := by decide
    simpa using this pr hmem

lemma dropWhile_lowerStr (l : List Char) :
    (lowerStr l).dropWhile jsSpace = lowerStr (l.dropWhile jsSpace) := by
  induction l with
  | nil => rfl
  | cons c cs ih =>
    simp only [lowerStr, List.map_cons, List.dropWhile_cons, jsSpace_lowerChar]
    by_cases h : jsSpace c = true
    · simpa [h] using ih
    · simp [h, lowerStr]

lemma reverse_lowerStr (l : List Char) : (lowerStr l).reverse = lowerStr l.reverse := by
  simp [lowerStr, List.map_reverse]

lemma trimJs_lowerStr (l : List Char) : trimJs (lowerStr l) = lowerStr (trimJs l) := by
  unfold trimJs
  rw [dropWhile_lowerStr, reverse_lowerStr, dropWhile_lowerStr, reverse_lowerStr]

lemma begins_of_startsWS {s : List Char} (h : startsSelectWS s = true) :
    beginsSelectCI s = true := by
  simp only [startsSelectWS, Bool.and_eq_true] at h
  exact h.1

lemma hasUpper_lowerStr (s : List Char) : hasUpper (lowerStr s) = false := by
  simp only [hasUpper, lowerStr, List.any_map]
  rw [List.any_eq_false]
  intro c _
  simp [Function.comp, isUpper_lowerChar]

lemma trimJs_cons_append {c : Char} {A N : List Char} (hc : jsSpace c = false)
    (hN : N.reverse.dropWhile jsSpace = N.reverse) (hne : N ≠ []) :
    trimJs ((c :: A) ++ N) = (c :: A) ++ N := by
  unfold trimJs
  have h1 : ((c :: A) ++ N).dropWhile jsSpace = (c :: A) ++ N := by
    simp [List.cons_append, List.dropWhile_cons, hc]
  rw [h1]
  have hrev : ((c :: A) ++ N).reverse = N.reverse ++ (c :: A).reverse :=
    List.reverse_append _ _
  obtain ⟨d, r, hdr⟩ : ∃ d r, N.reverse = d :: r := by
    cases hNr : N.reverse with
    | nil => exact absurd (List.reverse_eq_nil_iff.mp hNr) hne
    | cons d r => exact ⟨d, r, rfl⟩
  have hd : jsSpace d = false := by
    rw [hdr] at hN
    rcases dropWhile_fix_head hN with h0 | ⟨e, es, hes, he⟩
    · cases h0
    · injection hes with h1' h2'
      rw [h1']
      exact he
  have h2 : (N.reverse ++ (c :: A).reverse).dropWhile jsSpace =
      N.reverse ++ (c :: A).reverse := by
    rw [hdr]
    simp [List.cons_append, List.dropWhile_cons, hd]
  rw [hrev, h2, ← hrev, List.reverse_reverse]

lemma step_iteration (aw : Bool) (e : DbEngine) (r : List Char) (st : LoopState) :
    ((stepResponse aw e r st).1).iteration = st.iteration := by
  unfold stepResponse
  cases hth : thoughtCapture r <;> dsimp only <;> (repeat' split) <;> rfl

lemma step_sql_mono (aw : Bool) (e : DbEngine) (r : List Char) (st : LoopState) :
    ∃ l, ((stepResponse aw e r st).1).sqlQueries = st.sqlQueries ++ l := by
  unfold stepResponse
  cases hth : thoughtCapture r <;> dsimp only <;> (repeat' split) <;>
    first
      | exact ⟨_, rfl⟩
      | exact ⟨[], (List.append_nil _).symm⟩

lemma loopGo_iter_le (aw : Bool) (llm : AgentLlm) (e : DbEngine) :
    ∀ (fuel : Nat) (st : LoopState),
      (loopGo aw llm e fuel st).iterations ≤ st.iteration + fuel := by
  intro fuel
  induction fuel with
  | zero =>
    intro st
    simp [loopGo, successResult]
  | succ f ih =>
    intro st
    simp only [loopGo]
    cases hm : llm ({ st with iteration := st.iteration + 1 } : LoopState).context with
    | error msg =>
      dsimp only
      simp [errorResult]
    | ok resp =>
      dsimp only
      rcases hstep : stepResponse aw e resp { st with iteration := st.iteration + 1 } with ⟨st2, brk⟩
      have hit : st2.iteration = st.iteration + 1 := by
        have h2 := step_iteration aw e resp { st with iteration := st.iteration + 1 }
        rw [hstep] at h2
        exact h2
      cases brk with
      | true =>
        dsimp only
        simp [successResult, hit]
      | false =>
        dsimp only
        have h3 := ih st2
        omega

lemma loopGo_fail (aw : Bool) (llm : AgentLlm) (e : DbEngine) :
    ∀ (fuel : Nat) (st : LoopState),
      (loopGo aw llm e fuel st).success = false →
      ∃ st' msg, llm st'.context = Except.error msg ∧
        loopGo aw llm e fuel st = errorResult st' msg ∧
        (∃ l, st'.sqlQueries = st.sqlQueries ++ l) ∧
        st.iteration ≤ st'.iteration := by
  intro fuel
  induction fuel with
  | zero =>
    intro st h
    simp [loopGo, successResult] at h
  | succ f ih =>
    intro st h
    simp only [loopGo] at h ⊢
    cases hm : llm st.context with
    | error msg =>
      refine ⟨{ st with iteration := st.iteration + 1 }, msg, hm, ?_, ?_, ?_⟩
      · rfl
      · exact ⟨[], by show st.sqlQueries = st.sqlQueries ++ []; simp⟩
      · show st.iteration ≤ st.iteration + 1
        omega
    | ok resp =>
      rw [hm] at h
      dsimp only at h ⊢
      rcases hstep : stepResponse aw e resp { st with iteration := st.iteration + 1 } with
        ⟨st2, brk⟩
      rw [hstep] at h
      cases brk with
      | true =>
        dsimp only at h
        simp [successResult] at h
      | false =>
        dsimp only at h ⊢
        obtain ⟨st', msg, h1, h2, ⟨l, hl⟩, h4⟩ := ih st2 h
        have h5 := step_iteration aw e resp { st with iteration := st.iteration + 1 }
        rw [hstep] at h5
        obtain ⟨l0, hl0⟩ := step_sql_mono aw e resp { st with iteration := st.iteration + 1 }
        rw [hstep] at hl0
        refine ⟨st', msg, h1, h2, ?_, ?_⟩
        · refine ⟨l0 ++ l, ?_⟩
          rw [hl]
          have hl0' : st2.sqlQueries = st.sqlQueries ++ l0 := hl0
          rw [hl0', List.append_assoc]
        · have h5' : st2.iteration = st.iteration + 1 := h5
          omega

/-- C1, counterexample: the claim predicts acceptance of the text
`select` (it begins with the select keyword after stripping and
trimming) and of a bare-fenced select statement (its fenced-code
marker carries no sql tag), yet the guard rejects both, because its
regex additionally demands a whitespace character after the keyword
and its stripping branch recognizes only sql-tagged fences. -/
theorem c1_counterexample :
    specAcceptC1 (strL "select") = true ∧
    guardAndNormalize false (strL "select") = Except.error guardMsg ∧
    specAcceptC1 ([backTick, backTick, backTick] ++ strL "\nselect 1\n" ++
      [backTick, backTick, backTick]) = true ∧
    guardAndNormalize false ([backTick, backTick, backTick] ++ strL "\nselect 1\n" ++
      [backTick, backTick, backTick]) = Except.error guardMsg :=
  ⟨by decide, rfl, by decide, rfl⟩

/-- C1, amended: with writes disallowed, the direct-translator guard
accepts a model text exactly when its trimmed form begins
case-insensitively with `select` followed by a whitespace character,
or begins with an sql-tagged fenced-code marker whose stripped body
(trailing fence and whitespace removed) does so; every rejection fails
with the guard-violation error message. -/
theorem c1_amended_guard_iff (s : List Char) :
    ((∃ out, guardAndNormalize false s = Except.ok out) ↔ amendedAcceptC1 s = true) ∧
    (amendedAcceptC1 s = false → guardAndNormalize false s = Except.error guardMsg) := by
  cases h0 : startsSelectWS (trimJs s) with
  | true =>
    constructor
    · simp [guardAndNormalize, amendedAcceptC1, h0]
    · intro hA
      simp [amendedAcceptC1, h0] at hA
  | false =>
    cases h1 : fenceSqlTest (trimJs s) with
    | false =>
      constructor
      · simp [guardAndNormalize, amendedAcceptC1, h0, h1]
      · intro _
        simp [guardAndNormalize, h0, h1]
    | true =>
      cases h2 : startsSelectWS (trimJs (dropFenceClose (dropFenceSql (trimJs s)))) with
      | true =>
        constructor
        · simp [guardAndNormalize, amendedAcceptC1, h0, h1, h2]
        · intro hA
          simp [amendedAcceptC1, h0, h1, h2] at hA
      | false =>
        constructor
        · simp [guardAndNormalize, amendedAcceptC1, h0, h1, h2]
        · intro _
          simp [guardAndNormalize, h0, h1, h2]

/-- C1, witness: a concrete rejected input taken through the amended
theorem. -/
theorem c1_witness :
    amendedAcceptC1 (strL "drop table contacts") = false ∧
    guardAndNormalize false (strL "drop table contacts") = Except.error guardMsg :=
  ⟨by decide, (c1_amended_guard_iff (strL "drop table contacts")).2 (by decide)⟩

/-- C2: with writes disallowed, every statement that reaches database
execution begins case-insensitively with SELECT.  First part: when the
trimmed input of the sql-query action handler does not begin with the
select keyword, the handler returns the failure observation and its
result does not depend on the database engine (the engine is never
invoked).  Second part: whenever the handler guard passes (the only
path on which the engine is reached), the trimmed text does begin with
the select keyword.  Third part: the database executor itself rejects
any text not beginning (after leading whitespace) with the select
keyword, with the guard error and without consulting the engine. -/
theorem c2_select_only_execution :
    (∀ (allowWrites : Bool) (e1 e2 : DbEngine) (q : List Char),
       beginsSelectCI (trimJs q) = false →
         executeSqlQuery allowWrites e1 q =
           Json.obj [(strL "error", Json.str (strL "Only SELECT queries are allowed")),
                     (strL "query", Json.str q)] ∧
         executeSqlQuery allowWrites e1 q = executeSqlQuery allowWrites e2 q) ∧
    (∀ q : List Char, leadSelectTest (trimJs q) = true → beginsSelectCI (trimJs q) = true) ∧
    (∀ (e1 e2 : DbEngine) (sql : List Char) (params : List (List Char)),
       beginsSelectCI (sql.dropWhile jsSpace) = false →
         execSelect false e1 sql params = Except.error onlySelectMsg ∧
         execSelect false e1 sql params = execSelect false e2 sql params) := by
  refine ⟨?_, ?_, ?_⟩
  · intro allowWrites e1 e2 q h
    have hlead : leadSelectTest (trimJs q) = false := by
      unfold leadSelectTest
      rw [trimJs_noLeadWs]
      unfold startsSelectWS
      rw [h]
      rfl
    constructor
    · simp [executeSqlQuery, hlead]
    · simp [executeSqlQuery, hlead]
  · intro q h
    unfold leadSelectTest at h
    rw [trimJs_noLeadWs] at h
    exact begins_of_startsWS h
  · intro e1 e2 sql params h
    have hlead : leadSelectTest sql = false := by
      unfold leadSelectTest startsSelectWS
      rw [h]
      rfl
    constructor
    · simp [execSelect, hlead]
    · simp [execSelect, hlead]

/-- C2, witness: a concrete write statement is turned away by both
guards without reaching any engine. -/
theorem c2_witness :
    beginsSelectCI (trimJs (strL "DROP TABLE contacts")) = false ∧
    executeSqlQuery false emptyDb (strL "DROP TABLE contacts") =
      Json.obj [(strL "error", Json.str (strL "Only SELECT queries are allowed")),
                (strL "query", Json.str (strL "DROP TABLE contacts"))] ∧
    execSelect false emptyDb (strL "DROP TABLE contacts") [] = Except.error onlySelectMsg :=
  ⟨by decide,
   (c2_select_only_execution.1 false emptyDb emptyDb (strL "DROP TABLE contacts")
     (by decide)).1,
   (c2_select_only_execution.2.2 emptyDb emptyDb (strL "DROP TABLE contacts") []
     (by decide)).1⟩

/-- C3: a model response containing both a Final Answer section and an
Action section makes the loop body break with success: the step flag
is the break flag, no observation is recorded, no sql query is
tracked, no context entry is appended, and the step result does not
depend on the database engine (no action handler runs); a run whose
first response is such a text returns success at iteration 1. -/
theorem c3_final_answer_precedence :
    ∀ (allowWrites : Bool) (e1 e2 : DbEngine) (resp : List Char) (st : LoopState),
      containsSub faHeader resp = true →
      containsSub acHeader resp = true →
      (stepResponse allowWrites e1 resp st).2 = true ∧
      ((stepResponse allowWrites e1 resp st).1).observations = st.observations ∧
      ((stepResponse allowWrites e1 resp st).1).sqlQueries = st.sqlQueries ∧
      ((stepResponse allowWrites e1 resp st).1).context = st.context ∧
      stepResponse allowWrites e1 resp st = stepResponse allowWrites e2 resp st ∧
      (∀ (llm : AgentLlm) (maxIterations : Nat),
        0 < maxIterations →
        llm initState.context = Except.ok resp →
        (processQuery allowWrites maxIterations llm e1).success = true ∧
        (processQuery allowWrites maxIterations llm e1).iterations = 1) := by
  intro aw e1 e2 resp st hfa hac
  refine ⟨?_, ?_, ?_, ?_, ?_, ?_⟩
  · simp only [stepResponse, hfa]
    cases hth : thoughtCapture resp <;> simp
  · simp only [stepResponse, hfa]
    cases hth : thoughtCapture resp <;> simp
  · simp only [stepResponse, hfa]
    cases hth : thoughtCapture resp <;> simp
  · simp only [stepResponse, hfa]
    cases hth : thoughtCapture resp <;> simp
  · simp only [stepResponse, hfa, if_true]
  · intro llm maxIterations hpos hresp
    simp only [initState] at hresp
    cases maxIterations with
    | zero => omega
    | succ k =>
      simp only [processQuery, loopGo, initState]
      rw [hresp]
      simp only [stepResponse, hfa, if_true]
      cases hth : thoughtCapture resp <;> simp [successResult]

/-- C3, witness: a concrete response carrying both sections taken
through the precedence theorem. -/
theorem c3_witness :
    containsSub faHeader
      (strL "Thought: done\nFinal Answer: 42\nAction: sql-query\nAction Input: select 1") = true ∧
    (stepResponse false emptyDb
      (strL "Thought: done\nFinal Answer: 42\nAction: sql-query\nAction Input: select 1")
      initState).2 = true ∧
    (processQuery false 5 bothHeadersLlm emptyDb).success = true :=
  ⟨by decide,
   (c3_final_answer_precedence false emptyDb emptyDb
     (strL "Thought: done\nFinal Answer: 42\nAction: sql-query\nAction Input: select 1")
     initState (by decide) (by decide)).1,
   ((c3_final_answer_precedence false emptyDb emptyDb
     (strL "Thought: done\nFinal Answer: 42\nAction: sql-query\nAction Input: select 1")
     initState (by decide) (by decide)).2.2.2.2.2 bothHeadersLlm 5 (by decide) rfl).1⟩

/-- C4, counterexample: on a first response with no recognizable
section header the run ends at iteration 1 with the diagnostic
reasoning entry, but the returned result reports success equal to
true, not false as the claim states (only the catch handler of
`processQuery` produces a false success flag). -/
theorem c4_counterexample :
    processQuery false 5 noHeaderLlm emptyDb =
      ⟨[], [unableMsg], [], [], 1, true⟩ ∧
    (processQuery false 5 noHeaderLlm emptyDb).success ≠ false :=
  ⟨rfl, by decide⟩

/-- C4, amended: when the first model response of a run contains no
Final Answer header, no Thought header and no complete Action with
Action Input pair, the run stops without retrying that turn and
returns (without raising) the result with empty sql, observation and
row lists, the single diagnostic reasoning entry
`Unable to parse action from response`, iterations 1, and success
true. -/
theorem c4_unparseable_first_response (allowWrites : Bool) (llm : AgentLlm)
    (engine : DbEngine) (maxIterations : Nat) (resp : List Char)
    (hpos : 0 < maxIterations)
    (hresp : llm initState.context = Except.ok resp)
    (hth : containsSub thHeader resp = false)
    (hfa : containsSub faHeader resp = false)
    (hai : (containsSub acHeader resp && containsSub aiHeader resp) = false) :
    processQuery allowWrites maxIterations llm engine =
      ⟨[], [unableMsg], [], [], 1, true⟩ := by
  simp only [initState] at hresp
  cases maxIterations with
  | zero => omega
  | succ k =>
    simp only [processQuery, loopGo, initState]
    rw [hresp]
    have hthn : thoughtCapture resp = none := by
      unfold thoughtCapture
      rw [contains_false_restAfter hth]
      rfl
    simp only [stepResponse, hthn, hfa, hai]
    simp [successResult]

/-- C4, witness: the amended statement at a concrete headerless
response. -/
theorem c4_witness :
    0 < 5 ∧
    processQuery false 5 noHeaderLlm emptyDb = ⟨[], [unableMsg], [], [], 1, true⟩ :=
  ⟨by decide,
   c4_unparseable_first_response false noHeaderLlm emptyDb 5
     (strL "I cannot help with that.") (by decide) rfl (by decide) (by decide) (by decide)⟩

/-- C5: the agent loop is a total function whose iteration budget is
respected: each loop pass makes exactly one model invocation and
increments the iteration counter once, the returned iterations count
never exceeds the configured maximum, and an exhausted budget returns
the partial trace through the normal success-shaped return instead of
raising. -/
theorem c5_iteration_budget :
    (∀ (allowWrites : Bool) (llm : AgentLlm) (engine : DbEngine) (maxIterations : Nat),
       (processQuery allowWrites maxIterations llm engine).iterations ≤ maxIterations) ∧
    (∀ (allowWrites : Bool) (llm : AgentLlm) (engine : DbEngine) (st : LoopState),
       loopGo allowWrites llm engine 0 st = successResult st) := by
  constructor
  · intro allowWrites llm engine maxIterations
    have h := loopGo_iter_le allowWrites llm engine maxIterations initState
    simpa [processQuery, initState] using h
  · intro allowWrites llm engine st
    rfl

/-- C10: the agent run never propagates a thrown error: it always
returns a `ReactQueryResult`, database failures are absorbed into
observations by the handlers, and whenever the returned success flag
is false the run ended in the catch handler on a model-invocation
failure, returning the sql list accumulated up to the failure, a
single error reasoning entry, the fixed failure observation, no rows,
and the iteration count reached at the failure, within budget. -/
theorem c10_failure_shape (allowWrites : Bool) (maxIterations : Nat)
    (llm : AgentLlm) (engine : DbEngine)
    (h : (processQuery allowWrites maxIterations llm engine).success = false) :
    ∃ (st : LoopState) (msg : List Char), llm st.context = Except.error msg ∧
      processQuery allowWrites maxIterations llm engine =
        ⟨st.sqlQueries, [strL "Error: " ++ msg],
         [Json.str (strL "Failed to complete query processing")], [],
         st.iteration, false⟩ ∧
      st.iteration ≤ maxIterations := by
  obtain ⟨st, msg, h1, h2, _, _⟩ :=
    loopGo_fail allowWrites llm engine maxIterations initState h
  refine ⟨st, msg, h1, ?_, ?_⟩
  · simpa [processQuery, errorResult] using h2
  · have h3 := loopGo_iter_le allowWrites llm engine maxIterations initState
    have h4 : (loopGo allowWrites llm engine maxIterations initState).iterations =
        st.iteration := by
      rw [h2]
      rfl
    have h5 : initState.iteration = 0 := rfl
    omega

/-- C10, witness: a run against a failing model oracle lands in the
catch shape. -/
theorem c10_witness :
    (processQuery false 5 failingLlm emptyDb).success = false ∧
    ∃ (st : LoopState) (msg : List Char), failingLlm st.context = Except.error msg ∧
      processQuery false 5 failingLlm emptyDb =
        ⟨st.sqlQueries, [strL "Error: " ++ msg],
         [Json.str (strL "Failed to complete query processing")], [],
         st.iteration, false⟩ ∧
      st.iteration ≤ 5 :=
  ⟨rfl, c10_failure_shape false 5 failingLlm emptyDb rfl⟩

/-- C6: with the agent capability disabled by configuration, a
react-mode request is answered by the direct translator and wrapped in
the agent shape with iterations 1 and the fixed fallback notice, and
its sql statement is exactly the statement direct mode produces for
the same prompt against the same model oracle. -/
theorem c6_disabled_agent_fallback (allowWrites : Bool) (dllm : DirectLlm)
    (allm : AgentLlm) (engine : DbEngine) (prompt sqlText : List Char)
    (rows : List Json) (maxIterations : Nat)
    (htr : translateDirect allowWrites dllm prompt = Except.ok sqlText)
    (hdb : execSelect allowWrites engine sqlText [] = Except.ok rows) :
    handleReactQuery allowWrites false maxIterations dllm allm engine prompt =
      Except.ok ⟨[sqlText], [fallbackNotice],
                 [Json.str (strL "Direct SQL generation used")], rows, 1, true⟩ ∧
    handleDirectQuery allowWrites dllm engine prompt = Except.ok (sqlText, rows) := by
  constructor
  · simp [handleReactQuery, nl2sqlProcess, htr, hdb]
  · simp [handleDirectQuery, htr, hdb]

/-- C6, witness: a concrete disabled-agent run producing the same sql
as direct mode. -/
theorem c6_witness :
    translateDirect false selectDllm (strL "show me contacts") =
      Except.ok (strL "select 1") ∧
    handleReactQuery false false 5 selectDllm noHeaderLlm emptyDb
      (strL "show me contacts") =
      Except.ok ⟨[strL "select 1"], [fallbackNotice],
                 [Json.str (strL "Direct SQL generation used")], [], 1, true⟩ ∧
    handleDirectQuery false selectDllm emptyDb (strL "show me contacts") =
      Except.ok (strL "select 1", []) :=
  ⟨rfl,
   (c6_disabled_agent_fallback false selectDllm noHeaderLlm emptyDb
     (strL "show me contacts") (strL "select 1") [] 5 rfl rfl).1,
   (c6_disabled_agent_fallback false selectDllm noHeaderLlm emptyDb
     (strL "show me contacts") (strL "select 1") [] 5 rfl rfl).2⟩

/-- C7, counterexample: the payload with a truthy non-string `error`
field is answered by the analysis-failure object, which carries no
suggestion and no retryable flag, against the claim that every payload
yields exactly one suggestion and a retryable flag. -/
theorem c7_counterexample :
    analyzeError numErrorPayload = analyzeFailJson numErrorPayload ∧
    jMember (analyzeError numErrorPayload) (strL "suggestions") = none ∧
    jMember (analyzeError numErrorPayload) (strL "canRetry") = none :=
  ⟨rfl, rfl, rfl⟩

/-- C7, amended: every analyzed payload is either classified (its
effective message is the string `error` field of a parsed JSON object
when truthy, else the raw payload) or, when the truthy `error` field
is not a string, answered with the analysis-failure object; every
classified result carries exactly one suggestion and a retryable flag
equal to the classification not being unknown; classification follows
the fixed priority syntax error, then missing relation, then missing
column, then guard violation, then unknown; the concrete
missing-relation payload yields `RELATION_NOT_FOUND`, the suggestion
naming the valid tables, and a true retryable flag. -/
theorem c7_error_analyzer_classification :
    (∀ input : List Char,
       (∃ m q, analyzeError input = analyzeCore m q) ∨
       analyzeError input = analyzeFailJson input) ∧
    (∀ (m : List Char) (q : Option Json),
       jMember (analyzeCore m q) (strL "suggestions") =
         some (Json.arr [Json.str (suggestionFor (classifyMsg (lowerStr m)))]) ∧
       jMember (analyzeCore m q) (strL "canRetry") =
         some (Json.bool (decide (classifyMsg (lowerStr m) ∈ retryList)))) ∧
    (∀ L : List Char, classifyMsg L ∈ retryList ↔ classifyMsg L ≠ strL "UNKNOWN_ERROR") ∧
    (∀ L : List Char, containsSub (strL "syntax error") L = true →
       classifyMsg L = strL "SYNTAX_ERROR") ∧
    (∀ L : List Char, containsSub (strL "syntax error") L = false →
       containsSub (strL "relation") L = true →
       containsSub (strL "does not exist") L = true →
       classifyMsg L = strL "RELATION_NOT_FOUND") ∧
    (∀ L : List Char, containsSub (strL "syntax error") L = false →
       (containsSub (strL "relation") L && containsSub (strL "does not exist") L) = false →
       containsSub (strL "column") L = true →
       containsSub (strL "does not exist") L = true →
       classifyMsg L = strL "COLUMN_NOT_FOUND") ∧
    (∀ L : List Char, containsSub (strL "syntax error") L = false →
       (containsSub (strL "relation") L && containsSub (strL "does not exist") L) = false →
       (containsSub (strL "column") L && containsSub (strL "does not exist") L) = false →
       containsSub (strL "only select statements are allowed") L = true →
       classifyMsg L = strL "SAFETY_GUARD") ∧
    (∀ L : List Char, containsSub (strL "syntax error") L = false →
       (containsSub (strL "relation") L && containsSub (strL "does not exist") L) = false →
       (containsSub (strL "column") L && containsSub (strL "does not exist") L) = false →
       containsSub (strL "only select statements are allowed") L = false →
       classifyMsg L = strL "UNKNOWN_ERROR") ∧
    analyzeError relationPayload =
      Json.obj [(strL "errorType", Json.str (strL "RELATION_NOT_FOUND")),
                (strL "originalError", Json.str (strL "relation \"foo\" does not exist")),
                (strL "suggestions", Json.arr [Json.str (strL
                  "Check table name spelling - available tables: contacts, cases, recent_activity")]),
                (strL "canRetry", Json.bool true)] := by
  refine ⟨?_, ?_, ?_, ?_, ?_, ?_, ?_, ?_, ?_⟩
  · intro input
    unfold analyzeError
    cases h1 : jsonParse input with
    | none => exact Or.inl ⟨input, some Json.null, rfl⟩
    | some p =>
      cases h2 : jMember p (strL "error") with
      | none => exact Or.inl ⟨input, some Json.null, by dsimp only; rw [h2]⟩
      | some ev =>
        cases h3 : jTruthy ev with
        | false => exact Or.inl ⟨input, some Json.null, by dsimp only; rw [h2]; simp [h3]⟩
        | true =>
          cases ev with
          | str m => exact Or.inl ⟨m, jMember p (strL "query"), by dsimp only; rw [h2]; simp [h3]⟩
          | null => exact Or.inr (by dsimp only; rw [h2]; simp [h3])
          | bool b => exact Or.inr (by dsimp only; rw [h2]; simp [h3])
          | num n => exact Or.inr (by dsimp only; rw [h2]; simp [h3])
          | arr items => exact Or.inr (by dsimp only; rw [h2]; simp [h3])
          | obj fields => exact Or.inr (by dsimp only; rw [h2]; simp [h3])
  · intro m q
    cases q with
    | none => exact ⟨rfl, rfl⟩
    | some qv => exact ⟨rfl, rfl⟩
  · intro L
    unfold classifyMsg
    split_ifs <;> decide
  · intro L h1
    simp [classifyMsg, h1]
  · intro L h1 h2 h3
    simp [classifyMsg, h1, h2, h3]
  · intro L h1 h2 h3 h4
    have ha : containsSub (strL "relation") L = false := by
      simpa [h4] using h2
    simp [classifyMsg, h1, ha, h3, h4]
  · intro L h1 h2 h3 h4
    simp [classifyMsg, h1, h2, h3, h4]
  · intro L h1 h2 h3 h4
    simp [classifyMsg, h1, h2, h3, h4]
  · rfl

/-- C7, witness: the priority conjuncts applied at concrete messages. -/
theorem c7_witness :
    containsSub (strL "syntax error") (strL "syntax error at end of input") = true ∧
    classifyMsg (strL "syntax error at end of input") = strL "SYNTAX_ERROR" :=
  ⟨by decide,
   c7_error_analyzer_classification.2.2.2.1 (strL "syntax error at end of input")
     (by decide)⟩

lemma describe_ne_tables (r : List Char) : strL "describe " ++ r ≠ strL "tables" := by
  intro h
  have h0 : ('d' :: (strL "escribe " ++ r)) = ('t' :: strL "ables") := h
  injection h0 with h1 h2
  exact absurd h1 (by decide)

lemma sample_ne_tables (r : List Char) : strL "sample " ++ r ≠ strL "tables" := by
  intro h
  have h0 : ('s' :: (strL "ample " ++ r)) = ('t' :: strL "ables") := h
  injection h0 with h1 h2
  exact absurd h1 (by decide)

lemma sample_not_describe (r : List Char) :
    startsWithL (strL "describe ") (strL "sample " ++ r) = false := rfl

lemma lead_tablesQuery : leadSelectTest tablesQuery = true := by decide

lemma lead_describeQuery : leadSelectTest describeQuery = true := by decide

lemma lead_checkQuery : leadSelectTest checkQuery = true := by decide

lemma lead_sampleQuery (t : List Char) : leadSelectTest (sampleQuery t) = true := rfl

lemma execSelect_pass {sql : List Char} (h : leadSelectTest sql = true)
    (allowWrites : Bool) (engine : DbEngine) (params : List (List Char)) :
    execSelect allowWrites engine sql params = engine sql params := by
  simp [execSelect, h]

lemma drop9_describe (r : List Char) : (strL "describe " ++ r).drop 9 = r := rfl

lemma drop7_sample (r : List Char) : (strL "sample " ++ r).drop 7 = r := rfl

/-- C8: the schema inspector accepts exactly the three command forms.
Any input whose lowercased trimmed text is not `tables` and starts
with neither `describe ` nor `sample ` gets the structured error
enumerating the three valid forms.  `tables` lists the catalog rows;
`describe` returns the column rows when nonempty; for `sample`, when
the catalog existence check returns no row the inspector answers the
not-found error and its result is independent of what the engine would
do on any other query (so the interpolated sampling query is never
issued), while after a successful check the interpolated limited
sampling query is issued. -/
theorem c8_schema_inspector_commands :
    (∀ (allowWrites : Bool) (engine : DbEngine) (input : List Char),
       lowerStr (trimJs input) ≠ strL "tables" →
       startsWithL (strL "describe ") (lowerStr (trimJs input)) = false →
       startsWithL (strL "sample ") (lowerStr (trimJs input)) = false →
       inspectSchema allowWrites engine input =
         Json.obj [(strL "error", Json.str invalidCmdMsg),
                   (strL "command", Json.str input)]) ∧
    (∀ (allowWrites : Bool) (engine : DbEngine) (input : List Char) (rows : List Json),
       lowerStr (trimJs input) = strL "tables" →
       engine tablesQuery [] = Except.ok rows →
       inspectSchema allowWrites engine input =
         Json.obj [(strL "success", Json.bool true), (strL "tables", Json.arr rows)]) ∧
    (∀ (allowWrites : Bool) (engine : DbEngine) (input r : List Char) (rows : List Json),
       lowerStr (trimJs input) = strL "describe " ++ r →
       engine describeQuery [trimJs r] = Except.ok rows →
       rows ≠ [] →
       inspectSchema allowWrites engine input =
         Json.obj [(strL "success", Json.bool true),
                   (strL "tableName", Json.str (trimJs r)),
                   (strL "columns", Json.arr rows)]) ∧
    (∀ (allowWrites : Bool) (engine : DbEngine) (input r : List Char),
       lowerStr (trimJs input) = strL "sample " ++ r →
       engine checkQuery [trimJs r] = Except.ok [] →
       inspectSchema allowWrites engine input = notFoundJson (trimJs r)) ∧
    (∀ (allowWrites : Bool) (e1 e2 : DbEngine) (input r : List Char),
       lowerStr (trimJs input) = strL "sample " ++ r →
       e1 checkQuery [trimJs r] = Except.ok [] →
       e2 checkQuery [trimJs r] = Except.ok [] →
       inspectSchema allowWrites e1 input = inspectSchema allowWrites e2 input) ∧
    (∀ (allowWrites : Bool) (engine : DbEngine) (input r : List Char)
       (row0 : Json) (moreRows rows : List Json),
       lowerStr (trimJs input) = strL "sample " ++ r →
       engine checkQuery [trimJs r] = Except.ok (row0 :: moreRows) →
       engine (sampleQuery (trimJs r)) [] = Except.ok rows →
       inspectSchema allowWrites engine input =
         Json.obj [(strL "success", Json.bool true),
                   (strL "tableName", Json.str (trimJs r)),
                   (strL "sampleRows", Json.arr rows),
                   (strL "rowCount", Json.num rows.length)]) := by
  have hsample : ∀ (allowWrites : Bool) (engine : DbEngine) (input r : List Char),
      lowerStr (trimJs input) = strL "sample " ++ r →
      engine checkQuery [trimJs r] = Except.ok [] →
      inspectSchema allowWrites engine input = notFoundJson (trimJs r) := by
    intro aw engine input r hcmd hchk
    simp [inspectSchema, hcmd, sample_ne_tables, sample_not_describe,
      startsWith_append_self, drop7_sample, execSelect_pass lead_checkQuery, hchk]
  refine ⟨?_, ?_, ?_, hsample, ?_, ?_⟩
  · intro aw engine input h1 h2 h3
    simp [inspectSchema, h1, h2, h3]
  · intro aw engine input rows hcmd heng
    simp [inspectSchema, hcmd, execSelect_pass lead_tablesQuery, heng]
  · intro aw engine input r rows hcmd heng hrows
    cases rows with
    | nil => exact absurd rfl hrows
    | cons row0 more =>
      simp [inspectSchema, hcmd, describe_ne_tables, startsWith_append_self,
        drop9_describe, execSelect_pass lead_describeQuery, heng]
  · intro aw e1 e2 input r hcmd h1 h2
    rw [hsample aw e1 input r hcmd h1, hsample aw e2 input r hcmd h2]
  · intro aw engine input r row0 moreRows rows hcmd hchk hsamp
    simp [inspectSchema, hcmd, sample_ne_tables, sample_not_describe,
      startsWith_append_self, drop7_sample, execSelect_pass lead_checkQuery, hchk,
      execSelect_pass (lead_sampleQuery (trimJs r)), hsamp]

/-- C8, witness: the invalid-form error and the unchecked-sample
not-found error at concrete inputs. -/
theorem c8_witness :
    inspectSchema false emptyDb (strL "drop everything") =
      Json.obj [(strL "error", Json.str invalidCmdMsg),
                (strL "command", Json.str (strL "drop everything"))] ∧
    inspectSchema false emptyDb (strL "sample missing") =
      notFoundJson (strL "missing") :=
  ⟨c8_schema_inspector_commands.1 false emptyDb (strL "drop everything")
     (by decide) (by decide) (by decide),
   c8_schema_inspector_commands.2.2.2.1 false emptyDb (strL "sample missing")
     (strL "missing") (by decide) rfl⟩

/-- C9: the schema inspector lowercases its whole trimmed input before
interpreting it: lowercased text never contains an uppercase letter,
the command keyword matches case-insensitively (an uppercase
`DESCRIBE` behaves like `describe`), and the table identifier is
looked up in lowercased form, so a catalog table whose name contains
an uppercase letter (with no lowercase twin in the catalog) is always
answered with the table-not-found error by `describe` and `sample`. -/
theorem c9_lowercased_identifier_lookup :
    (∀ s : List Char, hasUpper (lowerStr s) = false) ∧
    (∀ (tables : List (List Char)) (cols : List Char → List Json)
       (allowWrites : Bool) (N : List Char),
       N ∈ tables → hasUpper N = true →
       N.dropWhile jsSpace = N → N.reverse.dropWhile jsSpace = N.reverse →
       lowerStr N ∉ tables →
       inspectSchema allowWrites (catalogEngine tables cols) (strL "describe " ++ N) =
         notFoundJson (lowerStr N) ∧
       inspectSchema allowWrites (catalogEngine tables cols) (strL "DESCRIBE " ++ N) =
         notFoundJson (lowerStr N) ∧
       inspectSchema allowWrites (catalogEngine tables cols) (strL "sample " ++ N) =
         notFoundJson (lowerStr N)) := by
  constructor
  · exact hasUpper_lowerStr
  · intro tables cols aw N hmem hup hlead htrail hlow
    have hne : N ≠ [] := by
      intro h
      rw [h] at hup
      simp [hasUpper] at hup
    have htrimN : trimJs N = N := by
      unfold trimJs
      rw [hlead, htrail, List.reverse_reverse]
    have htrimLower : trimJs (lowerStr N) = lowerStr N := by
      rw [trimJs_lowerStr, htrimN]
    have hlowmap : ∀ (A : List Char), lowerStr (A ++ N) = lowerStr A ++ lowerStr N := by
      intro A
      simp [lowerStr, List.map_append]
    have hdescr : trimJs (strL "describe " ++ N) = strL "describe " ++ N :=
      trimJs_cons_append (c := 'd') (A := strL "escribe ") (by decide) htrail hne
    have hdescrU : trimJs (strL "DESCRIBE " ++ N) = strL "DESCRIBE " ++ N :=
      trimJs_cons_append (c := 'D') (A := strL "ESCRIBE ") (by decide) htrail hne
    have hsam : trimJs (strL "sample " ++ N) = strL "sample " ++ N :=
      trimJs_cons_append (c := 's') (A := strL "ample ") (by decide) htrail hne
    have hcmd1 : lowerStr (trimJs (strL "describe " ++ N)) = strL "describe " ++ lowerStr N := by
      rw [hdescr, hlowmap]
      rfl
    have hcmd2 : lowerStr (trimJs (strL "DESCRIBE " ++ N)) = strL "describe " ++ lowerStr N := by
      rw [hdescrU, hlowmap]
      rfl
    have hcmd3 : lowerStr (trimJs (strL "sample " ++ N)) = strL "sample " ++ lowerStr N := by
      rw [hsam, hlowmap]
      rfl
    have hneq : ¬(describeQuery = checkQuery) := by decide
    have hdeng : catalogEngine tables cols describeQuery [lowerStr N] = Except.ok [] := by
      simp [catalogEngine, hneq, hlow]
    have hfil : tables.filter (fun n => n == lowerStr N) = [] := by
      rw [List.filter_eq_nil_iff]
      intro a ha
      simp only [beq_iff_eq]
      intro heq
      exact hlow (heq ▸ ha)
    have hcheck : catalogEngine tables cols checkQuery [lowerStr N] = Except.ok [] := by
      simp [catalogEngine, hfil]
    refine ⟨?_, ?_, ?_⟩
    · simp [inspectSchema, hcmd1, describe_ne_tables, startsWith_append_self,
        drop9_describe, htrimLower, execSelect_pass lead_describeQuery, hdeng]
    · simp [inspectSchema, hcmd2, describe_ne_tables, startsWith_append_self,
        drop9_describe, htrimLower, execSelect_pass lead_describeQuery, hdeng]
    · simp [inspectSchema, hcmd3, sample_ne_tables, sample_not_describe,
        startsWith_append_self, drop7_sample, htrimLower,
        execSelect_pass lead_checkQuery, hcheck]

/-- C9, witness: the uppercase-named table `Foo` cannot be described
or sampled. -/
theorem c9_witness :
    hasUpper (strL "Foo") = true ∧
    strL "Foo" ∈ [strL "Foo", strL "bar"] ∧
    lowerStr (strL "Foo") ∉ [strL "Foo", strL "bar"] ∧
    inspectSchema false (catalogEngine [strL "Foo", strL "bar"] (fun _ => [Json.null]))
      (strL "describe Foo") = notFoundJson (strL "foo") :=
  ⟨by decide, by decide, by decide,
   (c9_lowercased_identifier_lookup.2 [strL "Foo", strL "bar"] (fun _ => [Json.null])
     false (strL "Foo") (by decide) (by decide) (by decide) (by decide) (by decide)).1⟩
